import Mathlib

/-!
Verification of the git-knit reconciliation tool.

The development shallowly embeds the Python sources: the configuration
layer (operations/config.py) acts on an explicit key-value store, and the
rebuild engine (operations/rebuilder.py) together with the VCS gateway
(operations/executor.py) acts on an explicit repository state.  Git
commands issued by the gateway are modelled by their documented effect on
that state; merge and cherry-pick conflicts are decided by an environment
oracle, since the engine only reacts to their success or failure.

The file is organised as definitions first, theorems second.
-/

namespace GitKnit

/-! ## String helpers

Python string primitives used by the sources, modelled on the character
list underlying a Lean string: value.split of config.py line 39 and
":".join of line 58, prefix tests used for git config key listing, and
the sha[:7] slice of rebuilder.py line 54. -/

/-- Accumulating splitter: cuts a character list at every colon, keeping
empty pieces, exactly like Python value.split during config parsing. -/
def splitColonAux : List Char → List Char → List (List Char)
  | [], acc => [acc.reverse]
  | c :: cs, acc =>
    if c = ':' then acc.reverse :: splitColonAux cs []
    else splitColonAux cs (c :: acc)

/-- Model of Python value.split on a colon. -/
def splitColon (s : String) : List String :=
  (splitColonAux s.data []).map String.mk

/-- Interleaves a colon between the pieces, like Python ":".join. -/
def joinColonL : List (List Char) → List Char
  | [] => []
  | [x] => x
  | x :: y :: rest => x ++ ':' :: joinColonL (y :: rest)

/-- Model of Python ":".join. -/
def joinColon (l : List String) : String :=
  String.mk (joinColonL (l.map String.data))

/-- Model of a Python prefix test on strings (used for config key listing). -/
def strHasPref (p s : String) : Bool :=
  decide (s.data.take p.data.length = p.data)

/-- Model of the Python slice key[len(p):]. -/
def dropPref (p s : String) : String :=
  String.mk (s.data.drop p.data.length)

/-- Model of the Python slice sha[:7] used for backup branch names. -/
def shortSha (s : String) : String :=
  String.mk (s.data.take 7)

/-! ## Errors

Machine-distinguishable error kinds raised by the sources (errors.py):
GitConflictError, BranchNotFoundError, KnitError, plus the kind of a
failed subprocess call (CalledProcessError, outside the KnitError tree). -/

/-- Error kinds of errors.py, plus subprocess failure. -/
inductive Err where
  | gitConflict (detail : String)
  | branchNotFound (detail : String)
  | knitError (detail : String)
  | subprocessFailure
deriving Repr, DecidableEq

/-! ## Configuration store (operations/config.py)

The git config file is modelled as an association list of keys and
values; git config KEY VALUE replaces the value in place when the key is
present and appends the entry otherwise. -/

/-- The git config persistence backend. -/
abbrev Store := List (String × String)

/-- Effect of git config KEY VALUE (GitExecutor.set_config). -/
def setKey : Store → String → String → Store
  | [], k, v => [(k, v)]
  | (k2, v2) :: rest, k, v =>
    if k2 = k then (k, v) :: rest else (k2, v2) :: setKey rest k v

/-- Effect of git config --get KEY (GitExecutor.get_config); a missing
key is the error case of the executor. -/
def getKey (st : Store) (k : String) : Option String :=
  st.lookup k

/-- KnitConfig of operations/config.py: immutable value recording one
knit. -/
structure KnitConfig where
  working_branch : String
  base_branch : String
  feature_branches : List String
deriving Repr, DecidableEq

/-- KnitConfigManager._get_config_key. -/
def config_key (working : String) : String :=
  "knit." ++ working

/-- KnitConfigManager._parse_config: split on colons, require at least
two segments, drop empty feature segments. -/
def parse_config (value : String) : Except Err KnitConfig :=
  match splitColon value with
  | w :: b :: rest =>
    .ok ⟨w, b, rest.filter (fun p => p ≠ "")⟩
  | _ =>
    .error (.knitError ("Invalid config format: " ++ value))

/-- KnitConfigManager._serialize_config: colon-join working, base and
the features. -/
def serialize_config (c : KnitConfig) : String :=
  joinColon (c.working_branch :: c.base_branch :: c.feature_branches)

/-- KnitConfigManager.init_knit: serialize and store, with no check that
a configuration already exists. -/
def init_knit (st : Store) (working base : String) (features : List String) : Store :=
  setKey st (config_key working) (serialize_config ⟨working, base, features⟩)

/-- KnitConfigManager.get_config: read the stored value and parse it. -/
def get_config (st : Store) (working : String) : Except Err KnitConfig :=
  match getKey st (config_key working) with
  | none => .error (.knitError ("No knit configured for " ++ working))
  | some v => parse_config v

/-- KnitConfigManager.add_branch: reject only a branch already present,
then append and store. -/
def add_branch (st : Store) (working branch : String) : Except Err Store :=
  match get_config st working with
  | .error e => .error e
  | .ok c =>
    if branch ∈ c.feature_branches then
      .error (.knitError ("Branch " ++ branch ++ " is already in the knit"))
    else
      .ok (setKey st (config_key working)
        (serialize_config ⟨c.working_branch, c.base_branch,
          c.feature_branches ++ [branch]⟩))

/-- KnitConfigManager.remove_branch: fail when absent, else filter the
branch out and store. -/
def remove_branch (st : Store) (working branch : String) : Except Err Store :=
  match get_config st working with
  | .error e => .error e
  | .ok c =>
    if branch ∈ c.feature_branches then
      .ok (setKey st (config_key working)
        (serialize_config ⟨c.working_branch, c.base_branch,
          c.feature_branches.filter (fun b => b ≠ branch)⟩))
    else
      .error (.branchNotFound ("Branch " ++ branch ++ " is not in the knit"))

/-- KnitConfigManager.list_working_branches: keys under the knit prefix
with the prefix stripped. -/
def list_working_branches (st : Store) : List String :=
  ((st.filter (fun p => strHasPref "knit." p.1)).map (fun p => p.1)).map
    (fun k => dropPref "knit." k)

/-- KnitConfigManager.resolve_working_branch, fallback half: current
branch when configured, else a sole configured branch, else an error. -/
def resolve_from_context (st : Store) (current : String) : Except Err String :=
  if current ∈ list_working_branches st then .ok current
  else
    match list_working_branches st with
    | [b] => .ok b
    | _ => .error (.knitError "Cannot determine working branch.")

/-- KnitConfigManager.resolve_working_branch; an explicit argument that
is None or empty is falsy in Python and falls through to the context
resolution. -/
def resolve_working_branch (st : Store) (current : String) (explicit : Option String) :
    Except Err String :=
  match explicit with
  | some e =>
    if e ≠ "" then
      if e ∈ list_working_branches st then .ok e
      else .error (.knitError ("Working branch " ++ e ++ " is not configured"))
    else resolve_from_context st current
  | none => resolve_from_context st current

/-! ## Repository model (operations/executor.py)

Branch refs, the commit graph, the checked-out branch, the working tree
dirtiness and the stash stack form the repository state; every gateway
call is a function of that state.  A call that can raise returns the
state at raise time together with the error, mirroring Python exception
propagation. -/

/-- A commit: content-addressed identifier, parent identifiers, commit
date. -/
structure Commit where
  id : String
  parents : List String
  date : Nat
deriving Repr, DecidableEq

/-- Repository state threaded through every gateway call; popCount
counts stash-pop invocations. -/
structure Repo where
  commits : List Commit
  branches : List (String × String)
  current : String
  dirty : Bool
  stashes : Nat
  popCount : Nat
deriving Repr, DecidableEq

/-- Conflict oracle: whether merging a branch, or cherry-picking a
commit, reports a conflict.  The engine only observes the outcome. -/
structure Env where
  mergeConflicts : String → Bool
  pickConflicts : String → Bool

/-- Outcome of a gateway call that can raise. -/
abbrev GitRes (α : Type) := Except (Err × Repo) α

/-- Tip of a branch ref (git rev-parse refs/heads/NAME). -/
def lookupBranch (r : Repo) (b : String) : Option String :=
  r.branches.lookup b

/-- GitExecutor.branch_exists. -/
def branch_exists (r : Repo) (b : String) : Bool :=
  (lookupBranch r b).isSome

/-- Whether an identifier names a commit of the repository. -/
def commitExists (r : Repo) (c : String) : Bool :=
  r.commits.any (fun k => k.id = c)

/-- Resolution of a start point: a branch name or a commit identifier. -/
def resolveRef (r : Repo) (ref : String) : Option String :=
  match lookupBranch r ref with
  | some c => some c
  | none => if commitExists r ref then some ref else none

/-- Repoint (or create) a branch ref. -/
def setBranch (r : Repo) (b tip : String) : Repo :=
  { r with branches := setKey r.branches b tip }

/-- GitExecutor.create_branch (git branch NAME START): fails when the
branch exists or the start point does not resolve. -/
def create_branch (r : Repo) (b startPoint : String) : GitRes Repo :=
  if branch_exists r b then .error (.subprocessFailure, r)
  else
    match resolveRef r startPoint with
    | none => .error (.subprocessFailure, r)
    | some tip => .ok (setBranch r b tip)

/-- GitExecutor.checkout (git checkout NAME). -/
def checkout (r : Repo) (b : String) : GitRes Repo :=
  if branch_exists r b then .ok { r with current := b }
  else .error (.subprocessFailure, r)

/-- GitExecutor.delete_branch with force (git branch -D NAME): git
refuses to delete a missing or checked-out branch. -/
def delete_branch (r : Repo) (b : String) : GitRes Repo :=
  if branch_exists r b && r.current != b then
    .ok { r with branches := r.branches.filter (fun p => p.1 ≠ b) }
  else .error (.subprocessFailure, r)

/-- Largest commit date in the repository. -/
def maxDate (r : Repo) : Nat :=
  r.commits.foldr (fun c m => max c.date m) 0

/-- Identifier for a commit created by merge or cherry-pick. -/
def freshId (r : Repo) : String :=
  String.join (r.commits.map (fun c => c.id)) ++ "+"

/-- Append a newly created commit (merge or cherry-pick result). -/
def appendCommit (r : Repo) (parents : List String) : Repo × String :=
  let cid := freshId r
  ({ r with commits := r.commits ++ [⟨cid, parents, maxDate r + 1⟩] }, cid)

/-- GitExecutor.merge_branch (git merge --no-ff --no-edit BRANCH): on
any failure the merge is aborted, restoring the pre-merge state, and a
GitConflictError is raised; on success a merge commit with two parents
advances the checked-out branch. -/
def merge_branch (env : Env) (r : Repo) (b : String) : GitRes Repo :=
  match lookupBranch r r.current, lookupBranch r b with
  | some curTip, some bTip =>
    if env.mergeConflicts b then
      .error (.gitConflict ("Merge conflict with branch " ++ b), r)
    else
      let p := appendCommit r [curTip, bTip]
      .ok (setBranch p.1 r.current p.2)
  | _, _ => .error (.gitConflict ("Merge conflict with branch " ++ b), r)

/-- GitExecutor.cherry_pick (git cherry-pick COMMIT): a conflict leaves
the working tree mid-pick for manual resolution (no abort); success adds
a single-parent copy of the commit on the checked-out branch. -/
def cherry_pick (env : Env) (r : Repo) (c : String) : GitRes Repo :=
  if env.pickConflicts c then
    .error (.gitConflict ("Cherry-pick conflict for commit " ++ c),
      { r with dirty := true })
  else
    match lookupBranch r r.current, commitExists r c with
    | some curTip, true =>
      let p := appendCommit r [curTip]
      .ok (setBranch p.1 r.current p.2)
    | _, _ => .error (.gitConflict ("Cherry-pick conflict for commit " ++ c), r)

/-- GitExecutor.is_clean_working_tree. -/
def is_clean_working_tree (r : Repo) : Bool :=
  !r.dirty

/-- GitExecutor.stash_push: no-op reporting False on a clean tree,
otherwise stashes the modifications and reports True. -/
def stash_push (r : Repo) : Bool × Repo :=
  if is_clean_working_tree r then (false, r)
  else (true, { r with dirty := false, stashes := r.stashes + 1 })

/-- GitExecutor.stash_pop: restores the most recent stash entry; with an
empty stash both pop attempts fail and a KnitError is raised. -/
def stash_pop (r : Repo) : GitRes Repo :=
  if r.stashes = 0 then
    .error (.knitError "Failed to pop stash", { r with popCount := r.popCount + 1 })
  else
    .ok { r with stashes := r.stashes - 1, dirty := true, popCount := r.popCount + 1 }

/-! ## Commit classifier (executor.py lines 218-239) -/

/-- Parent identifiers of a commit in the graph. -/
def parentsOf (cs : List Commit) (cid : String) : List String :=
  match cs.find? (fun c => c.id = cid) with
  | some c => c.parents
  | none => []

/-- One breadth step of the ancestry walk. -/
def reachStep (cs : List Commit) (front : List String) : List String :=
  (front ++ front.flatMap (parentsOf cs)).dedup

/-- Iterated ancestry walk with explicit fuel. -/
def reachSet (cs : List Commit) : Nat → List String → List String
  | 0, front => front
  | n + 1, front => reachSet cs n (reachStep cs front)

/-- Reachability of commit TGT from commit SRC along parent edges; fuel
equal to the graph size saturates the walk. -/
def reachable (r : Repo) (src tgt : String) : Bool :=
  (reachSet r.commits r.commits.length [src]).contains tgt

/-- Resolution of a list of refs, failing when any is unknown. -/
def resolveRefs (r : Repo) : List String → Option (List String)
  | [] => some []
  | x :: xs =>
    match resolveRef r x, resolveRefs r xs with
    | some c, some cs => some (c :: cs)
    | _, _ => none

/-- Whether a commit is a merge commit (two or more parents). -/
def isMergeCommit (c : Commit) : Bool :=
  decide (2 ≤ c.parents.length)

/-- GitExecutor.get_local_working_branch_commits: the embedding of
git rev-list --reverse --no-merges BASE..WORKING --not FEATURES.  The
model keeps Repo.commits in commit-date order, oldest first (RepoWF), so
the oldest-first output of rev-list is the filtered commit list; like
the executor, a run that fails (unresolvable ref) yields the empty
list. -/
def get_local_working_branch_commits (r : Repo) (working base : String)
    (features : List String) : List String :=
  match resolveRef r working, resolveRef r base, resolveRefs r features with
  | some wt, some bt, some fts =>
    (r.commits.filter (fun c =>
      reachable r wt c.id && !reachable r bt c.id &&
      fts.all (fun ft => !reachable r ft c.id) && !isMergeCommit c)).map
      (fun c => c.id)
  | _, _, _ => []

/-- Well-formedness of the model repository: the commit list is stored
oldest first and identifiers are unique. -/
def RepoWF (r : Repo) : Prop :=
  List.Pairwise (fun a b => a.date ≤ b.date) r.commits ∧
  (r.commits.map (fun c => c.id)).Nodup

/-- Date comparison between commit identifiers of a repository, stated
over all commits carrying those identifiers. -/
def dateLE (r : Repo) (a b : String) : Prop :=
  ∀ ca ∈ r.commits, ca.id = a → ∀ cb ∈ r.commits, cb.id = b → ca.date ≤ cb.date

/-! ## Rebuild engine (operations/rebuilder.py) -/

/-- Backup ref name knit/backup/WORKING-SHORTSHA (rebuilder.py 55). -/
def backupNameOf (working sha : String) : String :=
  "knit/backup/" ++ working ++ "-" ++ shortSha sha

/-- The backup branch the engine will create from a given starting
state, when the working branch exists there. -/
def backupName (cfg : KnitConfig) (r : Repo) : Option String :=
  (lookupBranch r cfg.working_branch).map (backupNameOf cfg.working_branch)

/-- Temporary branch name WORKING.rebuilt (rebuilder.py 36). -/
def tempName (cfg : KnitConfig) : String :=
  cfg.working_branch ++ ".rebuilt"

/-- Snapshot phase of KnitRebuilder.rebuild (lines 39-56): compute the
local commits, move off the working branch when standing on it, and
record a backup ref at the working branch tip. -/
def rebuildSnapshot (cfg : KnitConfig) (wasOnWorking : Bool) (r : Repo) :
    GitRes (List String × Option String × Repo) :=
  if branch_exists r cfg.working_branch then
    match (if wasOnWorking then checkout r cfg.base_branch else .ok r : GitRes Repo) with
    | .error e => .error e
    | .ok r1 =>
      match lookupBranch r1 cfg.working_branch with
      | some sha =>
        match create_branch r1 (backupNameOf cfg.working_branch sha) sha with
        | .error e => .error e
        | .ok r2 =>
          .ok (get_local_working_branch_commits r cfg.working_branch
            cfg.base_branch cfg.feature_branches,
            some (backupNameOf cfg.working_branch sha), r2)
      | none =>
        .ok (get_local_working_branch_commits r cfg.working_branch
          cfg.base_branch cfg.feature_branches, none, r1)
  else .ok ([], none, r)

/-- Merge phase (rebuilder.py 61-66): check existence then merge, in
configured order. -/
def mergeFeatures (env : Env) (r : Repo) : List String → GitRes Repo
  | [] => .ok r
  | b :: rest =>
    if branch_exists r b then
      match merge_branch env r b with
      | .error e => .error e
      | .ok r1 => mergeFeatures env r1 rest
    else .error (.branchNotFound ("Feature branch " ++ b ++ " does not exist"), r)

/-- Cherry-pick phase (rebuilder.py 68-82); a conflict is re-raised with
the offending commit named in the message. -/
def pickCommits (env : Env) (r : Repo) : List String → GitRes Repo
  | [] => .ok r
  | c :: rest =>
    match cherry_pick env r c with
    | .error e => .error e
    | .ok r1 => pickCommits env r1 rest

/-- git branch -f WORKING TEMP (rebuilder.py 84): a single forced ref
move; git refuses to force-move the checked-out branch. -/
def force_branch (r : Repo) (b target : String) : GitRes Repo :=
  if r.current = b then .error (.subprocessFailure, r)
  else
    match resolveRef r target with
    | none => .error (.subprocessFailure, r)
    | some tip => .ok (setBranch r b tip)

/-- Publish and cleanup phase of KnitRebuilder.rebuild (lines 84-97):
force-move the working ref, restore the checkout position, delete the
temporary and backup branches, pop the stash when one was pushed. -/
def rebuildPublish (cfg : KnitConfig) (checkoutFlag wasOnWorking stashCreated : Bool)
    (backup : Option String) (temp : String) (r : Repo) : GitRes Repo :=
  match force_branch r cfg.working_branch temp with
  | .error e => .error e
  | .ok r1 =>
    match (if checkoutFlag || wasOnWorking then checkout r1 cfg.working_branch
           else if r1.current = temp then checkout r1 cfg.base_branch
           else .ok r1 : GitRes Repo) with
    | .error e => .error e
    | .ok r2 =>
      match (if branch_exists r2 temp then delete_branch r2 temp
             else .ok r2 : GitRes Repo) with
      | .error e => .error e
      | .ok r3 =>
        match (match backup with
               | some bk => if branch_exists r3 bk then delete_branch r3 bk else .ok r3
               | none => .ok r3 : GitRes Repo) with
        | .error e => .error e
        | .ok r4 => if stashCreated then stash_pop r4 else .ok r4

/-- Stash step of KnitRebuilder.rebuild (lines 29-33): push a stash when
the working tree is dirty, remembering whether one was created. -/
def stashPhase (r : Repo) : Bool × Repo :=
  if !is_clean_working_tree r then stash_push r else (false, r)

/-- KnitRebuilder.rebuild (rebuilder.py lines 14-102): exceptions
propagate unchanged (lines 99-102 re-raise both conflict errors and any
other exception), carrying the state at raise time. -/
def rebuild (env : Env) (cfg : KnitConfig) (checkoutFlag : Bool) (r0 : Repo) :
    GitRes Repo :=
  match rebuildSnapshot cfg (r0.current == cfg.working_branch) (stashPhase r0).2 with
  | .error e => .error e
  | .ok (saved, backup, r2) =>
    match create_branch r2 (tempName cfg) cfg.base_branch with
    | .error e => .error e
    | .ok r3 =>
      match checkout r3 (tempName cfg) with
      | .error e => .error e
      | .ok r4 =>
        match mergeFeatures env r4 cfg.feature_branches with
        | .error e => .error e
        | .ok r5 =>
          match pickCommits env r5 saved with
          | .error e => .error e
          | .ok r6 =>
            rebuildPublish cfg checkoutFlag (r0.current == cfg.working_branch)
              (stashPhase r0).1 backup (tempName cfg) r6

/-! ## Auxiliary notions for the engine theorems -/

/-- State carried by an outcome: the new state on success, the state at
raise time on failure. -/
def resState : GitRes Repo → Repo
  | .ok r => r
  | .error (_, r) => r

/-- State carried by a snapshot outcome. -/
def snapState : GitRes (List String × Option String × Repo) → Repo
  | .ok (_, _, r) => r
  | .error (_, r) => r

/-- Invariant of the merge and cherry-pick loops relative to the branch
checked out at loop entry: the checkout, the stash counters and every
other branch ref are untouched, and no branch disappears. -/
def KeepsRefs (cur : String) (r r2 : Repo) : Prop :=
  r2.current = cur ∧ r2.stashes = r.stashes ∧ r2.popCount = r.popCount ∧
  (∀ b, b ≠ cur → lookupBranch r2 b = lookupBranch r b) ∧
  (∀ b, branch_exists r b = true → branch_exists r2 b = true)

/-- Stash counters untouched. -/
def KeepsCounts (r r2 : Repo) : Prop :=
  r2.stashes = r.stashes ∧ r2.popCount = r.popCount

/-! ## Concrete fixtures used by witnesses and counterexamples -/

/-- Environment without conflicts. -/
def envNoConflict : Env :=
  ⟨fun _ => false, fun _ => false⟩

/-- Environment in which merging f1 conflicts. -/
def envF1Conflict : Env :=
  ⟨fun b => b = "f1", fun _ => false⟩

/-- Knit work = main + f1. -/
def cfgWork : KnitConfig :=
  ⟨"work", "main", ["f1"]⟩

/-- Two-commit repository: c0 on main and f1, one local commit c1 on
work, with a dirty working tree. -/
def repoTwo : Repo :=
  { commits := [⟨"c0", [], 0⟩, ⟨"c1", ["c0"], 1⟩]
    branches := [("main", "c0"), ("work", "c1"), ("f1", "c0")]
    current := "main"
    dirty := true
    stashes := 0
    popCount := 0 }

/-- Knit whose sole feature branch does not exist. -/
def cfgMissing : KnitConfig :=
  ⟨"work", "main", ["nope"]⟩

/-- One-commit repository holding only the base branch. -/
def repoBaseOnly : Repo :=
  { commits := [⟨"c0", [], 0⟩]
    branches := [("main", "c0")]
    current := "main"
    dirty := false
    stashes := 0
    popCount := 0 }

/-- Four-commit repository for the classifier: c1 is shared with the
feature branch, c2 is local, m is a merge commit tipping work. -/
def repoCls : Repo :=
  { commits := [⟨"c0", [], 0⟩, ⟨"c1", ["c0"], 1⟩, ⟨"c2", ["c1"], 2⟩,
      ⟨"m", ["c2", "c0"], 3⟩]
    branches := [("main", "c0"), ("f1", "c1"), ("work", "m")]
    current := "main"
    dirty := false
    stashes := 0
    popCount := 0 }

/-- State in which the conflicting rebuild of repoTwo halts: temporary
and backup branches and the stash entry are all present. -/
def repoTwoConflictState : Repo :=
  { commits := [⟨"c0", [], 0⟩, ⟨"c1", ["c0"], 1⟩]
    branches := [("main", "c0"), ("work", "c1"), ("f1", "c0"),
      ("knit/backup/work-c1", "c1"), ("work.rebuilt", "c0")]
    current := "work.rebuilt"
    dirty := false
    stashes := 1
    popCount := 0 }

/-- Final state of the successful rebuild of repoTwo. -/
def repoTwoSuccessState : Repo :=
  { commits := [⟨"c0", [], 0⟩, ⟨"c1", ["c0"], 1⟩,
      ⟨"c0c1+", ["c0", "c0"], 2⟩, ⟨"c0c1c0c1++", ["c0c1+"], 3⟩]
    branches := [("main", "c0"), ("work", "c0c1c0c1++"), ("f1", "c0")]
    current := "work"
    dirty := true
    stashes := 0
    popCount := 1 }

/-- State in which the rebuild of repoBaseOnly halts on the missing
feature branch: the temporary branch has already been created. -/
def repoBaseOnlyErrState : Repo :=
  { commits := [⟨"c0", [], 0⟩]
    branches := [("main", "c0"), ("work.rebuilt", "c0")]
    current := "work.rebuilt"
    dirty := false
    stashes := 0
    popCount := 0 }

/-! ## Theorems on the string helpers -/

@[simp]
theorem data_mk (l : List Char) : (String.mk l).data = l := rfl

@[simp]
theorem mk_data (s : String) : String.mk s.data = s := by
  cases s
  rfl

theorem splitColonAux_ne_nil (cs acc : List Char) : splitColonAux cs acc ≠ [] := by
  induction cs generalizing acc with
  | nil => simp [splitColonAux]
  | cons c cs ih =>
    simp only [splitColonAux]
    split
    · simp
    · exact ih _

theorem joinColonL_cons (x : List Char) (S : List (List Char)) (h : S ≠ []) :
    joinColonL (x :: S) = x ++ ':' :: joinColonL S := by
  cases S with
  | nil => exact absurd rfl h
  | cons y rest => rfl

theorem joinColonL_splitColonAux (cs : List Char) (acc : List Char) :
    joinColonL (splitColonAux cs acc) = acc.reverse ++ cs := by
  induction cs generalizing acc with
  | nil => simp [splitColonAux, joinColonL]
  | cons c cs ih =>
    simp only [splitColonAux]
    split
    · rename_i hc
      rw [joinColonL_cons _ _ (splitColonAux_ne_nil cs []), ih []]
      simp [hc]
    · rename_i hc
      rw [ih (c :: acc)]
      simp

/-- Joining the split pieces restores the original string, empty pieces
included. -/
theorem joinColon_splitColon (s : String) : joinColon (splitColon s) = s := by
  unfold joinColon splitColon
  rw [List.map_map]
  have : (String.data ∘ String.mk) = id := by
    funext l
    rfl
  rw [this, List.map_id, joinColonL_splitColonAux]
  simp

theorem splitColonAux_append (l cs acc : List Char) (hl : ':' ∉ l) :
    splitColonAux (l ++ cs) acc = splitColonAux cs (l.reverse ++ acc) := by
  induction l generalizing acc with
  | nil => simp
  | cons c t ih =>
    have hc : c ≠ ':' := fun h => hl (h ▸ List.mem_cons_self c t)
    have ht : ':' ∉ t := fun h => hl (List.mem_cons_of_mem c h)
    simp only [List.cons_append, splitColonAux, if_neg hc, List.append_eq]
    rw [ih (c :: acc) ht]
    simp

theorem splitColonAux_join (L : List (List Char)) (hne : L ≠ [])
    (hsep : ∀ l ∈ L, ':' ∉ l) :
    splitColonAux (joinColonL L) [] = L := by
  induction L with
  | nil => exact absurd rfl hne
  | cons x S ih =>
    cases S with
    | nil =>
      have hx : ':' ∉ x := hsep x (List.mem_cons_self x [])
      have := splitColonAux_append x [] [] hx
      simpa [joinColonL, splitColonAux] using this
    | cons y rest =>
      have hx : ':' ∉ x := hsep x (List.mem_cons_self _ _)
      rw [joinColonL_cons x (y :: rest) (by simp)]
      rw [splitColonAux_append x (':' :: joinColonL (y :: rest)) [] hx]
      simp only [splitColonAux, if_pos rfl]
      rw [ih (by simp) (fun l hl => hsep l (List.mem_cons_of_mem x hl))]
      simp

/-- Splitting a joined list of colon-free pieces recovers the pieces. -/
theorem splitColon_joinColon (L : List String) (hne : L ≠ [])
    (hsep : ∀ l ∈ L, ':' ∉ l.data) :
    splitColon (joinColon L) = L := by
  unfold splitColon joinColon
  rw [data_mk, splitColonAux_join (L.map String.data)
    (by simpa using hne)
    (by intro l hl
        rcases List.mem_map.mp hl with ⟨s, hs, rfl⟩
        exact hsep s hs)]
  rw [List.map_map]
  have : (String.mk ∘ String.data) = id := by
    funext s
    simp
  rw [this, List.map_id]

theorem splitColonAux_nosep (cs acc : List Char) (hacc : ':' ∉ acc) :
    ∀ l ∈ splitColonAux cs acc, ':' ∉ l := by
  induction cs generalizing acc with
  | nil =>
    intro l hl
    simp only [splitColonAux, List.mem_singleton] at hl
    subst hl
    simpa using hacc
  | cons c cs ih =>
    intro l hl
    simp only [splitColonAux] at hl
    split at hl
    · rcases List.mem_cons.mp hl with h | h
      · subst h
        simpa using hacc
      · exact ih [] (by simp) l h
    · rename_i hc
      refine ih (c :: acc) ?_ l hl
      intro hmem
      rcases List.mem_cons.mp hmem with h | h
      · exact hc h.symm
      · exact hacc h

theorem splitColon_nosep (s : String) : ∀ p ∈ splitColon s, ':' ∉ p.data := by
  intro p hp
  rcases List.mem_map.mp hp with ⟨l, hl, rfl⟩
  simpa using splitColonAux_nosep s.data [] (by simp) l hl

/-! ## Theorems on the configuration store -/

@[simp]
theorem getKey_setKey_self (st : Store) (k v : String) :
    getKey (setKey st k v) k = some v := by
  induction st with
  | nil => simp [setKey, getKey, List.lookup]
  | cons p rest ih =>
    obtain ⟨k2, v2⟩ := p
    by_cases h : k2 = k
    · simp [setKey, h, getKey, List.lookup]
    · simpa [setKey, h, getKey, List.lookup, beq_false_of_ne (Ne.symm h)] using ih

theorem getKey_setKey_ne (st : Store) (k v k2 : String) (h : k2 ≠ k) :
    getKey (setKey st k v) k2 = getKey st k2 := by
  induction st with
  | nil => simp [setKey, getKey, List.lookup, beq_false_of_ne h]
  | cons p rest ih =>
    obtain ⟨k3, v3⟩ := p
    by_cases h3 : k3 = k
    · subst h3
      simp [setKey, getKey, List.lookup, beq_false_of_ne h, beq_false_of_ne (Ne.symm h)]
    · by_cases h4 : k3 = k2
      · subst h4
        simp [setKey, h3, getKey, List.lookup]
      · simpa [setKey, h3, getKey, List.lookup, beq_false_of_ne (Ne.symm h4)] using ih

/-- Parsing inverts serialization for configurations whose names are
colon-free and whose features are non-empty strings. -/
theorem parse_serialize_id (c : KnitConfig)
    (hw : ':' ∉ c.working_branch.data) (hb : ':' ∉ c.base_branch.data)
    (hf : ∀ f ∈ c.feature_branches, ':' ∉ f.data ∧ f ≠ "") :
    parse_config (serialize_config c) = .ok c := by
  unfold parse_config serialize_config
  rw [splitColon_joinColon (c.working_branch :: c.base_branch :: c.feature_branches)
    (by simp)
    (by intro l hl
        rcases List.mem_cons.mp hl with rfl | hl
        · exact hw
        rcases List.mem_cons.mp hl with rfl | hl
        · exact hb
        · exact (hf l hl).1)]
  have hfilter : c.feature_branches.filter (fun p => !decide (p = "")) = c.feature_branches :=
    List.filter_eq_self.mpr (fun a ha => by simpa using (hf a ha).2)
  simp [hfilter]

/-- Shape of any successfully parsed configuration: every segment is
colon-free and every feature name is non-empty. -/
theorem parse_ok_shape (s : String) (c : KnitConfig)
    (h : parse_config s = .ok c) :
    ':' ∉ c.working_branch.data ∧ ':' ∉ c.base_branch.data ∧
    ∀ f ∈ c.feature_branches, ':' ∉ f.data ∧ f ≠ "" := by
  unfold parse_config at h
  rcases hs : splitColon s with _ | ⟨w, _ | ⟨b, rest⟩⟩ <;> rw [hs] at h
  · exact absurd h (by simp)
  · exact absurd h (by simp)
  · simp only [Except.ok.injEq] at h
    subst h
    refine ⟨?_, ?_, ?_⟩
    · exact splitColon_nosep s w (hs ▸ List.mem_cons_self _ _)
    · exact splitColon_nosep s b (hs ▸ List.mem_cons_of_mem _ (List.mem_cons_self _ _))
    · intro f hf
      have hmem : f ∈ rest := List.mem_of_mem_filter hf
      refine ⟨splitColon_nosep s f ?_, by simpa using List.of_mem_filter hf⟩
      rw [hs]
      exact List.mem_cons_of_mem _ (List.mem_cons_of_mem _ hmem)

/-- C5 counterexample: "w:b:" has three colon-delimited segments, hence
is well-formed in the claim's sense, yet serialize(parse(s)) drops the
trailing empty segment, so the claimed identity fails. -/
theorem serialize_parse_not_id_cex :
    2 ≤ (splitColon "w:b:").length ∧
    (parse_config "w:b:").map serialize_config = .ok "w:b" ∧
    ("w:b" : String) ≠ "w:b:" := by
  refine ⟨by decide, by rfl, by decide⟩

/-- C5 (amended): parse inverts serialize on valid configurations;
serialize inverts parse on well-formed strings whose segments after the
second are non-empty; a string with fewer than two colon-delimited
segments is rejected with a KnitError. -/
theorem config_roundtrip_amended :
    (∀ c : KnitConfig,
      c.working_branch ≠ "" → ':' ∉ c.working_branch.data →
      c.base_branch ≠ "" → ':' ∉ c.base_branch.data →
      (∀ f ∈ c.feature_branches, f ≠ "" ∧ ':' ∉ f.data) →
      c.feature_branches.Nodup →
      parse_config (serialize_config c) = .ok c) ∧
    (∀ s : String, 2 ≤ (splitColon s).length →
      (∀ p ∈ (splitColon s).drop 2, p ≠ "") →
      (parse_config s).map serialize_config = .ok s) ∧
    (∀ s : String, (splitColon s).length < 2 →
      parse_config s = .error (.knitError ("Invalid config format: " ++ s))) := by
  refine ⟨?_, ?_, ?_⟩
  · intro c _ hw _ hb hf _
    exact parse_serialize_id c hw hb (fun f hfm => ⟨(hf f hfm).2, (hf f hfm).1⟩)
  · intro s hlen hrest
    rcases hs : splitColon s with _ | ⟨w, _ | ⟨b, rest⟩⟩
    · rw [hs] at hlen
      simp at hlen
    · rw [hs] at hlen
      simp at hlen
    · have hfilter : rest.filter (fun p => p ≠ "") = rest := by
        refine List.filter_eq_self.mpr ?_
        intro a ha
        have := hrest a (by rw [hs]; simpa using ha)
        simpa using this
      unfold parse_config
      rw [hs]
      show Except.ok (serialize_config ⟨w, b, rest.filter (fun p => p ≠ "")⟩) = Except.ok s
      rw [hfilter]
      unfold serialize_config
      rw [← hs, joinColon_splitColon]
  · intro s hlen
    rcases hs : splitColon s with _ | ⟨w, _ | ⟨b, rest⟩⟩
    · unfold parse_config
      rw [hs]
    · unfold parse_config
      rw [hs]
    · rw [hs] at hlen
      simp at hlen
      omega

/-- C5 witness: the amended round trip evaluated on the configuration
work = main + b1 and on the persisted string "work:main:b1". -/
theorem config_roundtrip_amended_witness :
    parse_config (serialize_config ⟨"work", "main", ["b1"]⟩) = .ok ⟨"work", "main", ["b1"]⟩ ∧
    (parse_config "work:main:b1").map serialize_config = .ok "work:main:b1" ∧
    parse_config "workmain" = .error (.knitError ("Invalid config format: " ++ "workmain")) := by
  refine ⟨?_, ?_, ?_⟩
  · exact config_roundtrip_amended.1 ⟨"work", "main", ["b1"]⟩ (by decide) (by decide)
      (by decide) (by decide) (by decide) (by decide)
  · exact config_roundtrip_amended.2.1 "work:main:b1" (by decide) (by decide)
  · exact config_roundtrip_amended.2.2 "workmain" (by decide)

/-- C7 counterexample: a store already holding a configuration for the
working branch w; init neither fails nor preserves the old value, it
silently replaces it. -/
theorem init_overwrites_cex :
    getKey [(config_key "w", "w:main:old")] (config_key "w") = some "w:main:old" ∧
    init_knit [(config_key "w", "w:main:old")] "w" "main" ["new"] =
      [(config_key "w", "w:main:new")] := by
  constructor
  · rfl
  · rfl

/-- C7 (amended): init_knit is total and unconditionally stores the
serialized new configuration under the working branch key, overwriting
whatever was there; no AlreadyConfigured error exists on this path. -/
theorem init_always_overwrites (st : Store) (working base : String)
    (features : List String) :
    getKey (init_knit st working base features) (config_key working) =
      some (serialize_config ⟨working, base, features⟩) := by
  unfold init_knit
  exact getKey_setKey_self st (config_key working) _

/-- C10: the parser keeps only non-empty feature segments, wherever the
empty segment occurs; the two example strings parse as claimed. -/
theorem parse_drops_empty_segments :
    (∀ s c, parse_config s = .ok c → ∀ f ∈ c.feature_branches, f ≠ "") ∧
    parse_config "work:main:" = .ok ⟨"work", "main", []⟩ ∧
    parse_config "work:main::b2" = .ok ⟨"work", "main", ["b2"]⟩ := by
  refine ⟨?_, by rfl, by rfl⟩
  intro s c h f hf
  exact ((parse_ok_shape s c h).2.2 f hf).2

/-- C10 witness: the general part of the statement applied to the
concrete persisted string "a:b::c:". -/
theorem parse_drops_empty_segments_witness :
    ∀ f ∈ (KnitConfig.mk "a" "b" ["c"]).feature_branches, f ≠ "" :=
  parse_drops_empty_segments.1 "a:b::c:" ⟨"a", "b", ["c"]⟩ (by rfl)

/-- C8: the explicit argument wins and must be configured; otherwise the
current branch wins when configured; otherwise a sole configured working
branch is returned; otherwise the call fails. -/
theorem resolve_working_branch_order :
    (∀ (st : Store) (cur e : String), e ≠ "" → e ∈ list_working_branches st →
      resolve_working_branch st cur (some e) = .ok e) ∧
    (∀ (st : Store) (cur e : String), e ≠ "" → e ∉ list_working_branches st →
      resolve_working_branch st cur (some e) =
        .error (.knitError ("Working branch " ++ e ++ " is not configured"))) ∧
    (∀ (st : Store) (cur : String), cur ∈ list_working_branches st →
      resolve_working_branch st cur none = .ok cur) ∧
    (∀ (st : Store) (cur b : String), cur ∉ list_working_branches st →
      list_working_branches st = [b] →
      resolve_working_branch st cur none = .ok b) ∧
    (∀ (st : Store) (cur : String), cur ∉ list_working_branches st →
      (list_working_branches st).length ≠ 1 →
      resolve_working_branch st cur none =
        .error (.knitError "Cannot determine working branch.")) := by
  refine ⟨?_, ?_, ?_, ?_, ?_⟩
  · intro st cur e he hmem
    simp [resolve_working_branch, he, hmem]
  · intro st cur e he hmem
    simp [resolve_working_branch, he, hmem]
  · intro st cur hmem
    simp [resolve_working_branch, resolve_from_context, hmem]
  · intro st cur b hmem hlist
    simp only [resolve_working_branch, resolve_from_context, if_neg hmem]
    rw [hlist]
  · intro st cur hmem hlen
    simp only [resolve_working_branch, resolve_from_context, if_neg hmem]
    rcases hl : list_working_branches st with _ | ⟨a, _ | ⟨a2, t⟩⟩
    · rfl
    · rw [hl] at hlen
      simp at hlen
    · rfl

/-- C8 witness: with the single stored knit work = main + b1, an
explicit request for work resolves to work, and with no explicit request
from an unrelated branch, the sole configured working branch wins. -/
theorem resolve_working_branch_order_witness :
    resolve_working_branch [(config_key "work", "work:main:b1")] "other" (some "work") =
      .ok "work" ∧
    resolve_working_branch [(config_key "work", "work:main:b1")] "other" none =
      .ok "work" := by
  constructor
  · exact resolve_working_branch_order.1 _ "other" "work" (by decide) (by decide)
  · exact resolve_working_branch_order.2.2.2.1 _ "other" "work" (by decide) (by rfl)

/-- C6 counterexample: init happily stores the base branch as a feature,
and add_branch accepts the working branch itself as a new feature; the
claimed rejection does not exist. -/
theorem add_working_branch_accepted_cex :
    get_config (init_knit [] "w" "main" ["main"]) "w" = .ok ⟨"w", "main", ["main"]⟩ ∧
    "main" ∈ (KnitConfig.mk "w" "main" ["main"]).feature_branches ∧
    add_branch [(config_key "w", "w:main:f1")] "w" "w" =
      .ok [(config_key "w", "w:main:f1:w")] := by
  refine ⟨by rfl, by decide, by rfl⟩

/-- C6 (amended): add_branch rejects exactly a branch already present,
so freedom from duplicates is preserved by add and by remove, but
neither init nor add compares the branch against the working or base
branch: adding the working branch itself succeeds whenever it is not
already a feature. -/
theorem feature_list_invariant_amended :
    (∀ (st : Store) (w br : String) (c : KnitConfig) (st2 : Store),
      get_config st w = .ok c → add_branch st w br = .ok st2 →
      br ∉ c.feature_branches ∧
      (br ≠ "" → ':' ∉ br.data →
        get_config st2 w = .ok ⟨c.working_branch, c.base_branch,
          c.feature_branches ++ [br]⟩ ∧
        (c.feature_branches.Nodup → (c.feature_branches ++ [br]).Nodup))) ∧
    (∀ (st : Store) (w br : String) (c : KnitConfig) (st2 : Store),
      get_config st w = .ok c → remove_branch st w br = .ok st2 →
      get_config st2 w = .ok ⟨c.working_branch, c.base_branch,
          c.feature_branches.filter (fun b => b ≠ br)⟩ ∧
      (c.feature_branches.Nodup →
        (c.feature_branches.filter (fun b => b ≠ br)).Nodup)) ∧
    (∀ (st : Store) (w : String) (c : KnitConfig),
      get_config st w = .ok c → w ∉ c.feature_branches →
      ∃ st2, add_branch st w w = .ok st2) := by
  have shape : ∀ (st : Store) (w : String) (c : KnitConfig),
      get_config st w = .ok c →
      ':' ∉ c.working_branch.data ∧ ':' ∉ c.base_branch.data ∧
      ∀ f ∈ c.feature_branches, ':' ∉ f.data ∧ f ≠ "" := by
    intro st w c hget
    unfold get_config at hget
    rcases hv : getKey st (config_key w) with _ | v <;> rw [hv] at hget
    · exact absurd hget (by simp)
    · exact parse_ok_shape v c hget
  refine ⟨?_, ?_, ?_⟩
  · intro st w br c st2 hget hadd
    obtain ⟨hw, hb, hf⟩ := shape st w c hget
    unfold add_branch at hadd
    rw [hget] at hadd
    by_cases hmem : br ∈ c.feature_branches
    · simp [hmem] at hadd
    · simp only [hmem, if_false, Except.ok.injEq] at hadd
      subst hadd
      refine ⟨hmem, fun hbr hcolon => ⟨?_, fun hnd => ?_⟩⟩
      · unfold get_config
        rw [getKey_setKey_self]
        exact parse_serialize_id _ hw hb
          (by intro f hfm
              rcases List.mem_append.mp hfm with h | h
              · exact hf f h
              · simp only [List.mem_singleton] at h
                subst h
                exact ⟨hcolon, hbr⟩)
      · rw [List.nodup_append]
        refine ⟨hnd, List.nodup_singleton br, ?_⟩
        intro a ha hb2
        simp only [List.mem_singleton] at hb2
        subst hb2
        exact hmem ha
  · intro st w br c st2 hget hrem
    obtain ⟨hw, hb, hf⟩ := shape st w c hget
    unfold remove_branch at hrem
    rw [hget] at hrem
    by_cases hmem : br ∈ c.feature_branches
    · simp only [hmem, if_true, Except.ok.injEq] at hrem
      subst hrem
      constructor
      · unfold get_config
        rw [getKey_setKey_self]
        exact parse_serialize_id _ hw hb
          (fun f hfm => hf f (List.mem_of_mem_filter hfm))
      · exact fun hnd => hnd.filter _
    · simp [hmem] at hrem
  · intro st w c hget hmem
    refine ⟨setKey st (config_key w)
      (serialize_config ⟨c.working_branch, c.base_branch,
        c.feature_branches ++ [w]⟩), ?_⟩
    unfold add_branch
    rw [hget]
    simp [hmem]

/-- C6 witness: adding b2 to the stored knit w = main + f1 appends it
and keeps the feature list duplicate-free. -/
theorem feature_list_invariant_amended_witness :
    "b2" ∉ (KnitConfig.mk "w" "main" ["f1"]).feature_branches ∧
    (("b2" : String) ≠ "" → ':' ∉ ("b2" : String).data →
      get_config [(config_key "w", "w:main:f1:b2")] "w" =
        .ok ⟨"w", "main", ["f1"] ++ ["b2"]⟩ ∧
      ((["f1"] : List String).Nodup → ((["f1"] : List String) ++ ["b2"]).Nodup)) :=
  feature_list_invariant_amended.1 [(config_key "w", "w:main:f1")] "w" "b2"
    ⟨"w", "main", ["f1"]⟩ [(config_key "w", "w:main:f1:b2")] (by rfl) (by rfl)

/-! ## Theorems on the repository model -/

theorem tempName_ne_working (cfg : KnitConfig) :
    tempName cfg ≠ cfg.working_branch := by
  intro h
  have hlen := congrArg String.length h
  rw [tempName, String.length_append] at hlen
  have h8 : (".rebuilt" : String).length = 8 := rfl
  omega

theorem backupNameOf_length (w sha : String) :
    (backupNameOf w sha).length = w.length + 13 + (shortSha sha).length := by
  unfold backupNameOf
  rw [String.length_append, String.length_append, String.length_append]
  have h12 : ("knit/backup/" : String).length = 12 := rfl
  have h1 : ("-" : String).length = 1 := rfl
  omega

theorem backupNameOf_ne_working (w sha : String) : backupNameOf w sha ≠ w := by
  intro h
  have hlen := congrArg String.length h
  rw [backupNameOf_length] at hlen
  omega

theorem backupNameOf_ne_temp (cfg : KnitConfig) (sha : String) :
    backupNameOf cfg.working_branch sha ≠ tempName cfg := by
  intro h
  have hlen := congrArg String.length h
  rw [backupNameOf_length, tempName, String.length_append] at hlen
  have h8 : (".rebuilt" : String).length = 8 := rfl
  omega

theorem lookupBranch_setBranch_self (r : Repo) (b tip : String) :
    lookupBranch (setBranch r b tip) b = some tip :=
  getKey_setKey_self r.branches b tip

theorem lookupBranch_setBranch_ne (r : Repo) (b tip b2 : String) (h : b2 ≠ b) :
    lookupBranch (setBranch r b tip) b2 = lookupBranch r b2 :=
  getKey_setKey_ne r.branches b tip b2 h

theorem branch_exists_setBranch_mono (r : Repo) (b tip b2 : String)
    (h : branch_exists r b2 = true) :
    branch_exists (setBranch r b tip) b2 = true := by
  by_cases hb : b2 = b
  · subst hb
    simp [branch_exists, lookupBranch_setBranch_self]
  · unfold branch_exists
    rw [lookupBranch_setBranch_ne r b tip b2 hb]
    exact h

theorem keepsRefs_refl (r : Repo) : KeepsRefs r.current r r :=
  ⟨rfl, rfl, rfl, fun _ _ => rfl, fun _ h => h⟩

theorem keepsRefs_trans {cur : String} {r r2 r3 : Repo}
    (h1 : KeepsRefs cur r r2) (h2 : KeepsRefs cur r2 r3) : KeepsRefs cur r r3 := by
  obtain ⟨hc1, hs1, hp1, hl1, he1⟩ := h1
  obtain ⟨hc2, hs2, hp2, hl2, he2⟩ := h2
  exact ⟨hc2, hs2.trans hs1, hp2.trans hp1,
    fun b hb => (hl2 b hb).trans (hl1 b hb),
    fun b hb => he2 b (he1 b hb)⟩

theorem merge_branch_keeps (env : Env) (r : Repo) (b : String) :
    KeepsRefs r.current r (resState (merge_branch env r b)) := by
  unfold merge_branch
  rcases h1 : lookupBranch r r.current with _ | curTip <;>
    rcases h2 : lookupBranch r b with _ | bTip
  · exact keepsRefs_refl r
  · exact keepsRefs_refl r
  · exact keepsRefs_refl r
  · by_cases hc : env.mergeConflicts b
    · simp only [hc, if_true]
      exact keepsRefs_refl r
    · simp only [hc, if_false, resState]
      exact ⟨rfl, rfl, rfl,
        fun b2 hb => lookupBranch_setBranch_ne _ r.current _ b2 hb,
        fun b2 hb => branch_exists_setBranch_mono _ r.current _ b2 hb⟩

theorem cherry_pick_keeps (env : Env) (r : Repo) (c : String) :
    KeepsRefs r.current r (resState (cherry_pick env r c)) := by
  unfold cherry_pick
  by_cases hc : env.pickConflicts c
  · simp only [hc, if_true, resState]
    exact ⟨rfl, rfl, rfl, fun _ _ => rfl, fun _ h => h⟩
  · simp only [hc, if_false]
    rcases h1 : lookupBranch r r.current with _ | curTip <;>
      rcases h2 : commitExists r c with _ | _
    · exact keepsRefs_refl r
    · exact keepsRefs_refl r
    · exact keepsRefs_refl r
    · simp only [resState]
      exact ⟨rfl, rfl, rfl,
        fun b2 hb => lookupBranch_setBranch_ne _ r.current _ b2 hb,
        fun b2 hb => branch_exists_setBranch_mono _ r.current _ b2 hb⟩

theorem mergeFeatures_keeps (env : Env) (l : List String) (r : Repo) :
    KeepsRefs r.current r (resState (mergeFeatures env r l)) := by
  induction l generalizing r with
  | nil => exact keepsRefs_refl r
  | cons b rest ih =>
    unfold mergeFeatures
    by_cases hex : branch_exists r b
    · simp only [hex, if_true]
      cases hm : merge_branch env r b with
      | error e =>
        have hk := merge_branch_keeps env r b
        rw [hm] at hk
        exact hk
      | ok r1 =>
        have hk := merge_branch_keeps env r b
        rw [hm] at hk
        have h2 := ih r1
        exact keepsRefs_trans hk (hk.1 ▸ h2)
    · simp only [hex, if_false]
      exact keepsRefs_refl r

theorem pickCommits_keeps (env : Env) (l : List String) (r : Repo) :
    KeepsRefs r.current r (resState (pickCommits env r l)) := by
  induction l generalizing r with
  | nil => exact keepsRefs_refl r
  | cons c rest ih =>
    unfold pickCommits
    cases hm : cherry_pick env r c with
    | error e =>
      have hk := cherry_pick_keeps env r c
      rw [hm] at hk
      exact hk
    | ok r1 =>
      have hk := cherry_pick_keeps env r c
      rw [hm] at hk
      have h2 := ih r1
      exact keepsRefs_trans hk (hk.1 ▸ h2)

theorem checkout_cases (r : Repo) (b : String) :
    (checkout r b = .ok { r with current := b } ∧ branch_exists r b = true) ∨
    (checkout r b = .error (.subprocessFailure, r) ∧ branch_exists r b = false) := by
  unfold checkout
  by_cases h : branch_exists r b
  · exact Or.inl ⟨by simp [h], h⟩
  · exact Or.inr ⟨by simp [h], by simpa using h⟩

theorem create_branch_cases (r : Repo) (b sp : String) :
    (∃ tip, resolveRef r sp = some tip ∧ branch_exists r b = false ∧
      create_branch r b sp = .ok (setBranch r b tip)) ∨
    create_branch r b sp = .error (.subprocessFailure, r) := by
  unfold create_branch
  by_cases h : branch_exists r b
  · exact Or.inr (by simp [h])
  · rcases hr : resolveRef r sp with _ | tip
    · exact Or.inr (by simp [h, hr])
    · exact Or.inl ⟨tip, rfl, by simpa using h, by simp [h, hr]⟩

theorem delete_branch_cases (r : Repo) (b : String) :
    delete_branch r b = .ok { r with branches := r.branches.filter (fun p => p.1 ≠ b) } ∨
    delete_branch r b = .error (.subprocessFailure, r) := by
  unfold delete_branch
  by_cases h : (branch_exists r b && r.current != b) = true
  · exact Or.inl (by simp [h])
  · exact Or.inr (by simp [h])

theorem force_branch_cases (r : Repo) (b target : String) :
    (∃ tip, resolveRef r target = some tip ∧ r.current ≠ b ∧
      force_branch r b target = .ok (setBranch r b tip)) ∨
    force_branch r b target = .error (.subprocessFailure, r) := by
  unfold force_branch
  by_cases h : r.current = b
  · exact Or.inr (by simp [h])
  · rcases hr : resolveRef r target with _ | tip
    · exact Or.inr (by simp [h, hr])
    · exact Or.inl ⟨tip, rfl, h, by simp [h, hr]⟩

theorem stash_pop_cases (r : Repo) :
    (r.stashes = 0 ∧ stash_pop r =
      .error (.knitError "Failed to pop stash", { r with popCount := r.popCount + 1 })) ∨
    (r.stashes ≠ 0 ∧ stash_pop r =
      .ok { r with stashes := r.stashes - 1, dirty := true, popCount := r.popCount + 1 }) := by
  unfold stash_pop
  by_cases h : r.stashes = 0
  · exact Or.inl ⟨h, by simp [h]⟩
  · exact Or.inr ⟨h, by simp [h]⟩

theorem merge_branch_error_kind (env : Env) (r : Repo) (b : String) (e : Err)
    (r2 : Repo) (h : merge_branch env r b = .error (e, r2)) :
    ∃ m, e = .gitConflict m := by
  unfold merge_branch at h
  split at h
  · split at h
    · simp only [Except.error.injEq, Prod.mk.injEq] at h
      exact ⟨_, h.1.symm⟩
    · simp at h
  · simp only [Except.error.injEq, Prod.mk.injEq] at h
    exact ⟨_, h.1.symm⟩

theorem cherry_pick_error_kind (env : Env) (r : Repo) (c : String) (e : Err)
    (r2 : Repo) (h : cherry_pick env r c = .error (e, r2)) :
    ∃ m, e = .gitConflict m := by
  unfold cherry_pick at h
  split at h
  · simp only [Except.error.injEq, Prod.mk.injEq] at h
    exact ⟨_, h.1.symm⟩
  · split at h
    · simp at h
    · simp only [Except.error.injEq, Prod.mk.injEq] at h
      exact ⟨_, h.1.symm⟩

theorem pickCommits_error_kind (env : Env) (l : List String) (r : Repo) (e : Err)
    (r2 : Repo) (h : pickCommits env r l = .error (e, r2)) :
    ∃ m, e = .gitConflict m := by
  induction l generalizing r with
  | nil => exact absurd h (by simp [pickCommits])
  | cons c rest ih =>
    unfold pickCommits at h
    split at h
    · rename_i p hm
      simp only [Except.error.injEq] at h
      subst h
      exact cherry_pick_error_kind env r c e r2 hm
    · rename_i r1 hm
      exact ih r1 h

theorem mergeFeatures_error_kind (env : Env) (l : List String) (r : Repo) (e : Err)
    (r2 : Repo) (h : mergeFeatures env r l = .error (e, r2)) :
    (∃ m, e = .gitConflict m) ∨
    ∃ b ∈ l, e = .branchNotFound ("Feature branch " ++ b ++ " does not exist") := by
  induction l generalizing r with
  | nil => exact absurd h (by simp [mergeFeatures])
  | cons b rest ih =>
    unfold mergeFeatures at h
    split at h
    · split at h
      · rename_i p hm
        simp only [Except.error.injEq] at h
        subst h
        exact Or.inl (merge_branch_error_kind env r b e r2 hm)
      · rename_i r1 hm
        rcases ih r1 h with hc | ⟨b2, hb2, he⟩
        · exact Or.inl hc
        · exact Or.inr ⟨b2, List.mem_cons_of_mem b hb2, he⟩
    · simp only [Except.error.injEq, Prod.mk.injEq] at h
      exact Or.inr ⟨b, List.mem_cons_self b rest, h.1.symm⟩

theorem rebuildSnapshot_ok (cfg : KnitConfig) (wow : Bool) (r : Repo)
    (saved : List String) (backup : Option String) (r2 : Repo)
    (h : rebuildSnapshot cfg wow r = .ok (saved, backup, r2)) :
    backup = backupName cfg r ∧
    (∀ bk, backup = some bk → branch_exists r2 bk = true) ∧
    r2.stashes = r.stashes ∧ r2.popCount = r.popCount ∧
    lookupBranch r2 cfg.working_branch = lookupBranch r cfg.working_branch ∧
    (∀ b, branch_exists r b = true → branch_exists r2 b = true) := by
  unfold rebuildSnapshot at h
  by_cases hex : branch_exists r cfg.working_branch
  case neg =>
    rw [if_neg hex] at h
    simp only [Except.ok.injEq, Prod.mk.injEq] at h
    obtain ⟨_, hbk, hr⟩ := h
    subst hbk
    subst hr
    refine ⟨?_, by simp, rfl, rfl, rfl, fun b hb => hb⟩
    unfold backupName
    unfold branch_exists at hex
    rcases hl : lookupBranch r cfg.working_branch with _ | sha
    · rfl
    · rw [hl] at hex
      simp at hex
  case pos =>
    rw [if_pos hex] at h
    split at h
    · exact absurd h (by simp)
    · rename_i r1 hco
      have hr1 : r1.branches = r.branches ∧ r1.stashes = r.stashes ∧
          r1.popCount = r.popCount := by
        cases wow with
        | false =>
          simp only [Bool.false_eq_true, if_false, Except.ok.injEq] at hco
          subst hco
          exact ⟨rfl, rfl, rfl⟩
        | true =>
          simp only [if_true] at hco
          rcases checkout_cases r cfg.base_branch with ⟨hok, _⟩ | ⟨herr, _⟩
          · rw [hok] at hco
            simp only [Except.ok.injEq] at hco
            subst hco
            exact ⟨rfl, rfl, rfl⟩
          · rw [herr] at hco
            exact absurd hco (by simp)
      split at h
      · rename_i sha hsha
        have hlw : lookupBranch r cfg.working_branch = some sha := by
          rw [← hsha]
          unfold lookupBranch
          rw [hr1.1]
        split at h
        · exact absurd h (by simp)
        · rename_i r2x hok
          rcases create_branch_cases r1 (backupNameOf cfg.working_branch sha) sha with
            ⟨tip, _, _, hok2⟩ | herr
          · rw [hok2] at hok
            simp only [Except.ok.injEq] at hok
            simp only [Except.ok.injEq, Prod.mk.injEq] at h
            obtain ⟨_, hbk, hr2⟩ := h
            subst hbk
            subst hr2
            subst hok
            refine ⟨?_, ?_, ?_, ?_, ?_, ?_⟩
            · unfold backupName
              rw [hlw]
              rfl
            · intro bk hbk2
              have hbk3 : backupNameOf cfg.working_branch sha = bk :=
                Option.some.inj hbk2
              subst hbk3
              simp [branch_exists, lookupBranch_setBranch_self]
            · exact hr1.2.1
            · exact hr1.2.2
            · rw [lookupBranch_setBranch_ne r1 _ tip _
                (Ne.symm (backupNameOf_ne_working cfg.working_branch sha))]
              rw [hsha, hlw]
            · intro b hb
              refine branch_exists_setBranch_mono r1 _ tip b ?_
              unfold branch_exists lookupBranch
              rw [hr1.1]
              exact hb
          · rw [herr] at hok
            exact absurd hok (by simp)
      · rename_i hsha
        have hlw : lookupBranch r cfg.working_branch = none := by
          rw [← hsha]
          unfold lookupBranch
          rw [hr1.1]
        unfold branch_exists at hex
        rw [hlw] at hex
        simp at hex

theorem rebuildSnapshot_error_kind (cfg : KnitConfig) (wow : Bool) (r : Repo)
    (e : Err) (r2 : Repo) (h : rebuildSnapshot cfg wow r = .error (e, r2)) :
    e = .subprocessFailure := by
  unfold rebuildSnapshot at h
  by_cases hex : branch_exists r cfg.working_branch
  case neg =>
    rw [if_neg hex] at h
    exact absurd h (by simp)
  case pos =>
    rw [if_pos hex] at h
    split at h
    · rename_i p hco
      simp only [Except.error.injEq] at h
      cases wow with
      | false => exact absurd hco (by simp)
      | true =>
        simp only [if_true] at hco
        rcases checkout_cases r cfg.base_branch with ⟨hok, _⟩ | ⟨herr, _⟩
        · rw [hok] at hco
          exact absurd hco (by simp)
        · rw [herr] at hco
          simp only [Except.error.injEq] at hco
          rw [← hco] at h
          simp only [Except.error.injEq, Prod.mk.injEq] at h
          exact h.1.symm
    · rename_i r1 hco
      split at h
      · rename_i sha hsha
        split at h
        · rename_i p hcr
          rcases create_branch_cases r1 (backupNameOf cfg.working_branch sha) sha with
            ⟨tip, _, _, hok⟩ | herr
          · rw [hok] at hcr
            exact absurd hcr (by simp)
          · rw [herr] at hcr
            simp only [Except.error.injEq] at hcr
            rw [← hcr] at h
            simp only [Except.error.injEq, Prod.mk.injEq] at h
            exact h.1.symm
        · exact absurd h (by simp)
      · exact absurd h (by simp)

theorem checkout_ok_state (r : Repo) (b : String) (r2 : Repo)
    (h : checkout r b = .ok r2) : r2 = { r with current := b } := by
  rcases checkout_cases r b with ⟨hok, _⟩ | ⟨herr, _⟩
  · rw [hok] at h
    simp only [Except.ok.injEq] at h
    exact h.symm
  · rw [herr] at h
    exact absurd h (by simp)

theorem checkout_error_kind (r : Repo) (b : String) (p : Err × Repo)
    (h : checkout r b = .error p) : p.1 = .subprocessFailure := by
  rcases checkout_cases r b with ⟨hok, _⟩ | ⟨herr, _⟩
  · rw [hok] at h
    exact absurd h (by simp)
  · rw [herr] at h
    simp only [Except.error.injEq] at h
    rw [← h]

theorem delete_branch_ok_counts (r : Repo) (b : String) (r2 : Repo)
    (h : delete_branch r b = .ok r2) :
    r2.stashes = r.stashes ∧ r2.popCount = r.popCount := by
  rcases delete_branch_cases r b with hok | herr
  · rw [hok] at h
    simp only [Except.ok.injEq] at h
    subst h
    exact ⟨rfl, rfl⟩
  · rw [herr] at h
    exact absurd h (by simp)

theorem delete_branch_error_kind (r : Repo) (b : String) (p : Err × Repo)
    (h : delete_branch r b = .error p) : p.1 = .subprocessFailure := by
  rcases delete_branch_cases r b with hok | herr
  · rw [hok] at h
    exact absurd h (by simp)
  · rw [herr] at h
    simp only [Except.error.injEq] at h
    rw [← h]

theorem restore_step_counts (co wow : Bool) (cfg : KnitConfig) (temp : String)
    (r1 r2x : Repo)
    (hc : (if co || wow then checkout r1 cfg.working_branch
           else if r1.current = temp then checkout r1 cfg.base_branch
           else .ok r1 : GitRes Repo) = .ok r2x) :
    r2x.stashes = r1.stashes ∧ r2x.popCount = r1.popCount := by
  by_cases hcw : (co || wow) = true
  · rw [if_pos hcw] at hc
    have := checkout_ok_state r1 cfg.working_branch r2x hc
    subst this
    exact ⟨rfl, rfl⟩
  · rw [if_neg hcw] at hc
    by_cases hct : r1.current = temp
    · rw [if_pos hct] at hc
      have := checkout_ok_state r1 cfg.base_branch r2x hc
      subst this
      exact ⟨rfl, rfl⟩
    · rw [if_neg hct] at hc
      simp only [Except.ok.injEq] at hc
      subst hc
      exact ⟨rfl, rfl⟩

theorem restore_step_error_kind (co wow : Bool) (cfg : KnitConfig) (temp : String)
    (r1 : Repo) (p : Err × Repo)
    (hc : (if co || wow then checkout r1 cfg.working_branch
           else if r1.current = temp then checkout r1 cfg.base_branch
           else .ok r1 : GitRes Repo) = .error p) :
    p.1 = .subprocessFailure := by
  by_cases hcw : (co || wow) = true
  · rw [if_pos hcw] at hc
    exact checkout_error_kind r1 cfg.working_branch p hc
  · rw [if_neg hcw] at hc
    by_cases hct : r1.current = temp
    · rw [if_pos hct] at hc
      exact checkout_error_kind r1 cfg.base_branch p hc
    · rw [if_neg hct] at hc
      exact absurd hc (by simp)

theorem opt_delete_counts (r : Repo) (b : String) (r2 : Repo)
    (hc : (if branch_exists r b then delete_branch r b else .ok r : GitRes Repo) = .ok r2) :
    r2.stashes = r.stashes ∧ r2.popCount = r.popCount := by
  by_cases hex : branch_exists r b
  · rw [if_pos hex] at hc
    exact delete_branch_ok_counts r b r2 hc
  · rw [if_neg hex] at hc
    simp only [Except.ok.injEq] at hc
    subst hc
    exact ⟨rfl, rfl⟩

theorem opt_delete_error_kind (r : Repo) (b : String) (p : Err × Repo)
    (hc : (if branch_exists r b then delete_branch r b else .ok r : GitRes Repo) = .error p) :
    p.1 = .subprocessFailure := by
  by_cases hex : branch_exists r b
  · rw [if_pos hex] at hc
    exact delete_branch_error_kind r b p hc
  · rw [if_neg hex] at hc
    exact absurd hc (by simp)

theorem rebuildPublish_error_kind (cfg : KnitConfig) (co wow sc : Bool)
    (backup : Option String) (temp : String) (r : Repo) (e : Err) (r2 : Repo)
    (h : rebuildPublish cfg co wow sc backup temp r = .error (e, r2)) :
    e = .subprocessFailure ∨ ∃ m, e = .knitError m := by
  unfold rebuildPublish at h
  split at h
  · rename_i p hf
    rcases force_branch_cases r cfg.working_branch temp with ⟨tip, _, _, hok⟩ | herr
    · rw [hok] at hf
      exact absurd hf (by simp)
    · rw [herr] at hf
      simp only [Except.error.injEq] at hf
      rw [← hf] at h
      simp only [Except.error.injEq, Prod.mk.injEq] at h
      exact Or.inl h.1.symm
  · rename_i r1 hf
    split at h
    · rename_i p hc
      have := restore_step_error_kind co wow cfg temp r1 p hc
      simp only [Except.error.injEq] at h
      rw [h] at this
      exact Or.inl this
    · rename_i r2x hc
      split at h
      · rename_i p hd
        have := opt_delete_error_kind r2x temp p hd
        simp only [Except.error.injEq] at h
        rw [h] at this
        exact Or.inl this
      · rename_i r3 hd
        split at h
        · rename_i p hbkd
          have hkind : p.1 = .subprocessFailure := by
            cases backup with
            | none => exact absurd hbkd (by simp)
            | some bk => exact opt_delete_error_kind r3 bk p hbkd
          simp only [Except.error.injEq] at h
          rw [h] at hkind
          exact Or.inl hkind
        · rename_i r4 hbkd
          by_cases hsc : sc = true
          · rw [if_pos hsc] at h
            rcases stash_pop_cases r4 with ⟨_, herr⟩ | ⟨_, hok⟩
            · rw [herr] at h
              simp only [Except.error.injEq, Prod.mk.injEq] at h
              exact Or.inr ⟨_, h.1.symm⟩
            · rw [hok] at h
              exact absurd h (by simp)
          · rw [if_neg hsc] at h
            exact absurd h (by simp)

theorem rebuildPublish_ok_counts (cfg : KnitConfig) (co wow sc : Bool)
    (backup : Option String) (temp : String) (r : Repo) (r2 : Repo)
    (h : rebuildPublish cfg co wow sc backup temp r = .ok r2) :
    (sc = false → r2.stashes = r.stashes ∧ r2.popCount = r.popCount) ∧
    (sc = true → r2.popCount = r.popCount + 1) := by
  unfold rebuildPublish at h
  split at h
  · exact absurd h (by simp)
  · rename_i r1 hf
    have hc1 : r1.stashes = r.stashes ∧ r1.popCount = r.popCount := by
      rcases force_branch_cases r cfg.working_branch temp with ⟨tip, _, _, hok⟩ | herr
      · rw [hok] at hf
        simp only [Except.ok.injEq] at hf
        subst hf
        exact ⟨rfl, rfl⟩
      · rw [herr] at hf
        exact absurd hf (by simp)
    split at h
    · exact absurd h (by simp)
    · rename_i r2x hc
      have hc2 := restore_step_counts co wow cfg temp r1 r2x hc
      split at h
      · exact absurd h (by simp)
      · rename_i r3 hd
        have hc3 := opt_delete_counts r2x temp r3 hd
        split at h
        · exact absurd h (by simp)
        · rename_i r4 hbkd
          have hc4 : r4.stashes = r3.stashes ∧ r4.popCount = r3.popCount := by
            cases backup with
            | none =>
              simp only [Except.ok.injEq] at hbkd
              subst hbkd
              exact ⟨rfl, rfl⟩
            | some bk => exact opt_delete_counts r3 bk r4 hbkd
          constructor
          · intro hsc
            subst hsc
            simp only [Bool.false_eq_true, if_false, Except.ok.injEq] at h
            subst h
            refine ⟨?_, ?_⟩
            · rw [hc4.1, hc3.1, hc2.1, hc1.1]
            · rw [hc4.2, hc3.2, hc2.2, hc1.2]
          · intro hsc
            subst hsc
            simp only [if_true] at h
            rcases stash_pop_cases r4 with ⟨_, herr⟩ | ⟨_, hok⟩
            · rw [herr] at h
              exact absurd h (by simp)
            · rw [hok] at h
              simp only [Except.ok.injEq] at h
              subst h
              show r4.popCount + 1 = r.popCount + 1
              rw [hc4.2, hc3.2, hc2.2, hc1.2]

theorem stashPhase_spec (r : Repo) :
    (stashPhase r).1 = r.dirty ∧
    (stashPhase r).2.branches = r.branches ∧
    (stashPhase r).2.current = r.current ∧
    (stashPhase r).2.stashes = r.stashes + (if r.dirty then 1 else 0) ∧
    (stashPhase r).2.popCount = r.popCount := by
  by_cases hd : r.dirty <;>
    simp [stashPhase, stash_push, is_clean_working_tree, hd]

/-- Any error of the merge or cherry-pick loops leaves the working
branch ref, the temporary branch, the backup branch and the stash depth
exactly as the engine set them up; conclusions 1-5 relate the raise-time
state to the starting state, conclusion 6 identifies the feature branch
behind a BranchNotFound error. -/
theorem rebuild_loop_error_state (env : Env) (cfg : KnitConfig) (co : Bool)
    (r0 : Repo) (e : Err) (r2 : Repo)
    (h : rebuild env cfg co r0 = .error (e, r2))
    (hk1 : ∀ m, e ≠ .knitError m) (hk2 : e ≠ .subprocessFailure) :
    lookupBranch r2 cfg.working_branch = lookupBranch r0 cfg.working_branch ∧
    branch_exists r2 (tempName cfg) = true ∧
    (∀ bk, backupName cfg r0 = some bk → branch_exists r2 bk = true) ∧
    r2.stashes = r0.stashes + (if r0.dirty then 1 else 0) ∧
    r2.popCount = r0.popCount ∧
    (∀ dd, e = .branchNotFound dd →
      ∃ b ∈ cfg.feature_branches, dd = "Feature branch " ++ b ++ " does not exist") := by
  obtain ⟨hsp1, hspb, hspc, hsps, hspp⟩ := stashPhase_spec r0
  unfold rebuild at h
  split at h
  · rename_i p hsnap
    simp only [Except.error.injEq] at h
    rw [h] at hsnap
    exact absurd (rebuildSnapshot_error_kind _ _ _ _ _ hsnap) hk2
  · rename_i saved backup r2s hsnap
    obtain ⟨hbk0, hbkex, hst, hpcnt, hlw, hmono⟩ :=
      rebuildSnapshot_ok cfg _ _ _ _ _ hsnap
    have hbn : backupName cfg (stashPhase r0).2 = backupName cfg r0 := by
      unfold backupName lookupBranch
      rw [hspb]
    have hlw0 : lookupBranch (stashPhase r0).2 cfg.working_branch =
        lookupBranch r0 cfg.working_branch := by
      unfold lookupBranch
      rw [hspb]
    split at h
    · rename_i p hcr
      simp only [Except.error.injEq] at h
      rw [h] at hcr
      rcases create_branch_cases r2s (tempName cfg) cfg.base_branch with
        ⟨tip, _, _, hok⟩ | herr
      · rw [hok] at hcr
        exact absurd hcr (by simp)
      · rw [herr] at hcr
        simp only [Except.error.injEq, Prod.mk.injEq] at hcr
        exact absurd hcr.1.symm hk2
    · rename_i r3 hcr
      rcases create_branch_cases r2s (tempName cfg) cfg.base_branch with
        ⟨tip, _, _, hok⟩ | herr
      case inr =>
        rw [herr] at hcr
        exact absurd hcr (by simp)
      rw [hok] at hcr
      simp only [Except.ok.injEq] at hcr
      subst hcr
      split at h
      · rename_i p hco
        simp only [Except.error.injEq] at h
        rw [h] at hco
        have := checkout_error_kind _ _ _ hco
        exact absurd this hk2
      · rename_i r4 hco
        have hr4 := checkout_ok_state _ _ _ hco
        subst hr4
        -- facts at loop entry
        have hl4 : lookupBranch
            { setBranch r2s (tempName cfg) tip with current := tempName cfg }
            cfg.working_branch = lookupBranch r0 cfg.working_branch := by
          show lookupBranch (setBranch r2s (tempName cfg) tip) cfg.working_branch = _
          rw [lookupBranch_setBranch_ne r2s (tempName cfg) tip cfg.working_branch
            (Ne.symm (tempName_ne_working cfg))]
          rw [hlw, hlw0]
        have ht4 : branch_exists
            { setBranch r2s (tempName cfg) tip with current := tempName cfg }
            (tempName cfg) = true := by
          show branch_exists (setBranch r2s (tempName cfg) tip) (tempName cfg) = true
          simp [branch_exists, lookupBranch_setBranch_self]
        have hb4 : ∀ bk, backupName cfg r0 = some bk → branch_exists
            { setBranch r2s (tempName cfg) tip with current := tempName cfg }
            bk = true := by
          intro bk hbk
          show branch_exists (setBranch r2s (tempName cfg) tip) bk = true
          refine branch_exists_setBranch_mono r2s (tempName cfg) tip bk ?_
          exact hbkex bk (by rw [hbk0, hbn, hbk])
        have hcur4 : ({ setBranch r2s (tempName cfg) tip with
            current := tempName cfg } : Repo).current = tempName cfg := rfl
        split at h
        · rename_i p hmf
          simp only [Except.error.injEq] at h
          rw [h] at hmf
          have hkeep := mergeFeatures_keeps env cfg.feature_branches
            { setBranch r2s (tempName cfg) tip with current := tempName cfg }
          rw [hmf] at hkeep
          simp only [resState] at hkeep
          obtain ⟨hkc, hks, hkp, hkl, hke⟩ := hkeep
          refine ⟨?_, ?_, ?_, ?_, ?_, ?_⟩
          · exact (hkl cfg.working_branch
              (Ne.symm (tempName_ne_working cfg))).trans hl4
          · exact hke _ ht4
          · exact fun bk hbk => hke bk (hb4 bk hbk)
          · rw [hks]
            show r2s.stashes = _
            rw [hst, hsps]
          · rw [hkp]
            show r2s.popCount = _
            rw [hpcnt, hspp]
          · intro dd hdd
            rcases mergeFeatures_error_kind env cfg.feature_branches _ e r2 hmf with
              ⟨m, hm⟩ | ⟨b, hbm, hbe⟩
            · rw [hm] at hdd
              exact absurd hdd (by simp)
            · rw [hbe] at hdd
              simp only [Err.branchNotFound.injEq] at hdd
              exact ⟨b, hbm, hdd.symm⟩
        · rename_i r5 hmf
          have hkeep1 := mergeFeatures_keeps env cfg.feature_branches
            { setBranch r2s (tempName cfg) tip with current := tempName cfg }
          rw [hmf] at hkeep1
          simp only [resState] at hkeep1
          split at h
          · rename_i p hpc
            simp only [Except.error.injEq] at h
            rw [h] at hpc
            have hkeep2 := pickCommits_keeps env saved r5
            rw [hpc] at hkeep2
            simp only [resState] at hkeep2
            have hkeep : KeepsRefs (tempName cfg)
                { setBranch r2s (tempName cfg) tip with current := tempName cfg } r2 :=
              keepsRefs_trans (hcur4 ▸ hkeep1) ((hkeep1.1.trans hcur4) ▸ hkeep2)
            obtain ⟨hkc, hks, hkp, hkl, hke⟩ := hkeep
            refine ⟨?_, ?_, ?_, ?_, ?_, ?_⟩
            · exact (hkl cfg.working_branch
                (Ne.symm (tempName_ne_working cfg))).trans hl4
            · exact hke _ ht4
            · exact fun bk hbk => hke bk (hb4 bk hbk)
            · rw [hks]
              show r2s.stashes = _
              rw [hst, hsps]
            · rw [hkp]
              show r2s.popCount = _
              rw [hpcnt, hspp]
            · intro dd hdd
              rcases pickCommits_error_kind env saved r5 e r2 hpc with ⟨m, hm⟩
              rw [hm] at hdd
              exact absurd hdd (by simp)
          · rename_i r6 hpc
            rcases rebuildPublish_error_kind cfg co _ _ backup (tempName cfg) r6
              e r2 h with hsub | ⟨m, hknit⟩
            · exact absurd hsub hk2
            · exact absurd hknit (hk1 m)

/-- C1: a rebuild that fails with a merge or cherry-pick conflict leaves
the working branch ref exactly where it was before the rebuild started;
the ref is reassigned only in the publish step, which runs after every
merge and cherry-pick has succeeded. -/
theorem rebuild_conflict_preserves_working_ref (env : Env) (cfg : KnitConfig)
    (co : Bool) (r0 : Repo) (d : String) (r2 : Repo)
    (h : rebuild env cfg co r0 = .error (.gitConflict d, r2)) :
    lookupBranch r2 cfg.working_branch = lookupBranch r0 cfg.working_branch :=
  (rebuild_loop_error_state env cfg co r0 _ r2 h (fun m => by simp) (by simp)).1

/-- C1 witness: the conflicting rebuild of repoTwo keeps work pointing
at c1. -/
theorem rebuild_conflict_preserves_working_ref_witness :
    lookupBranch repoTwoConflictState cfgWork.working_branch =
      lookupBranch repoTwo cfgWork.working_branch :=
  rebuild_conflict_preserves_working_ref envF1Conflict cfgWork true repoTwo
    "Merge conflict with branch f1" repoTwoConflictState (by rfl)

/-- C2: when a rebuild halts on a merge or cherry-pick conflict, the
temporary branch still exists, the backup branch (when one was created)
still exists, and the stash entry pushed at the start is still there:
the conflict path cleans nothing up. -/
theorem rebuild_conflict_preserves_recovery (env : Env) (cfg : KnitConfig)
    (co : Bool) (r0 : Repo) (d : String) (r2 : Repo)
    (h : rebuild env cfg co r0 = .error (.gitConflict d, r2)) :
    branch_exists r2 (tempName cfg) = true ∧
    (∀ bk, backupName cfg r0 = some bk → branch_exists r2 bk = true) ∧
    (r0.dirty = true → r2.stashes = r0.stashes + 1) := by
  have H := rebuild_loop_error_state env cfg co r0 _ r2 h (fun m => by simp) (by simp)
  refine ⟨H.2.1, H.2.2.1, fun hd => ?_⟩
  rw [H.2.2.2.1, hd]
  simp

/-- C2 witness: after the conflicting rebuild of repoTwo the state still
holds work.rebuilt, the backup ref and one stash entry. -/
theorem rebuild_conflict_preserves_recovery_witness :
    branch_exists repoTwoConflictState (tempName cfgWork) = true ∧
    (∀ bk, backupName cfgWork repoTwo = some bk →
      branch_exists repoTwoConflictState bk = true) ∧
    (repoTwo.dirty = true → repoTwoConflictState.stashes = repoTwo.stashes + 1) :=
  rebuild_conflict_preserves_recovery envF1Conflict cfgWork true repoTwo
    "Merge conflict with branch f1" repoTwoConflictState (by rfl)

/-- C4 counterexample: with the sole configured feature branch missing,
the rebuild raises BranchNotFound only after the temporary branch has
been created, so the repository is not left untouched. -/
theorem branch_not_found_mutates_repo_cex :
    rebuild envNoConflict cfgMissing true repoBaseOnly =
      .error (.branchNotFound "Feature branch nope does not exist",
        repoBaseOnlyErrState) ∧
    branch_exists repoBaseOnly (tempName cfgMissing) = false ∧
    branch_exists repoBaseOnlyErrState (tempName cfgMissing) = true := by
  refine ⟨by rfl, by rfl, by rfl⟩

/-- C4 (amended): a missing feature branch is detected per feature,
immediately before its merge: BranchNotFound is raised before the
working branch ref is touched, but after the temporary branch has been
created (and features earlier in the configured order merged), so the
repository is mutated. -/
theorem branch_not_found_after_temp_created (env : Env) (cfg : KnitConfig)
    (co : Bool) (r0 : Repo) (d : String) (r2 : Repo)
    (h : rebuild env cfg co r0 = .error (.branchNotFound d, r2)) :
    lookupBranch r2 cfg.working_branch = lookupBranch r0 cfg.working_branch ∧
    branch_exists r2 (tempName cfg) = true ∧
    ∃ b ∈ cfg.feature_branches, d = "Feature branch " ++ b ++ " does not exist" := by
  have H := rebuild_loop_error_state env cfg co r0 _ r2 h (fun m => by simp) (by simp)
  exact ⟨H.1, H.2.1, H.2.2.2.2.2 d rfl⟩

/-- C4 witness: the amended statement evaluated on the repository whose
feature branch nope is missing. -/
theorem branch_not_found_after_temp_created_witness :
    lookupBranch repoBaseOnlyErrState cfgMissing.working_branch =
      lookupBranch repoBaseOnly cfgMissing.working_branch ∧
    branch_exists repoBaseOnlyErrState (tempName cfgMissing) = true ∧
    ∃ b ∈ cfgMissing.feature_branches,
      "Feature branch nope does not exist" =
        "Feature branch " ++ b ++ " does not exist" :=
  branch_not_found_after_temp_created envNoConflict cfgMissing true repoBaseOnly
    "Feature branch nope does not exist" repoBaseOnlyErrState (by rfl)

/-- C9: a successful rebuild pops a stash exactly when it pushed one at
the start; a rebuild that begins with a clean working tree never invokes
stash_pop and leaves the stash depth unchanged. -/
theorem rebuild_stash_pop_iff_pushed (env : Env) (cfg : KnitConfig) (co : Bool)
    (r0 : Repo) (r2 : Repo) (h : rebuild env cfg co r0 = .ok r2) :
    (r0.dirty = false → r2.popCount = r0.popCount ∧ r2.stashes = r0.stashes) ∧
    (r0.dirty = true → r2.popCount = r0.popCount + 1) := by
  obtain ⟨hsp1, hspb, hspc, hsps, hspp⟩ := stashPhase_spec r0
  unfold rebuild at h
  split at h
  · exact absurd h (by simp)
  · rename_i saved backup r2s hsnap
    obtain ⟨_, _, hst, hpcnt, _, _⟩ := rebuildSnapshot_ok cfg _ _ _ _ _ hsnap
    split at h
    · exact absurd h (by simp)
    · rename_i r3 hcr
      have hc3 : r3.stashes = r2s.stashes ∧ r3.popCount = r2s.popCount := by
        rcases create_branch_cases r2s (tempName cfg) cfg.base_branch with
          ⟨tip, _, _, hok⟩ | herr
        · rw [hok] at hcr
          simp only [Except.ok.injEq] at hcr
          subst hcr
          exact ⟨rfl, rfl⟩
        · rw [herr] at hcr
          exact absurd hcr (by simp)
      split at h
      · exact absurd h (by simp)
      · rename_i r4 hco
        have hr4 := checkout_ok_state _ _ _ hco
        have hc4 : r4.stashes = r3.stashes ∧ r4.popCount = r3.popCount := by
          subst hr4
          exact ⟨rfl, rfl⟩
        split at h
        · exact absurd h (by simp)
        · rename_i r5 hmf
          have hkeep1 := mergeFeatures_keeps env cfg.feature_branches r4
          rw [hmf] at hkeep1
          simp only [resState] at hkeep1
          split at h
          · exact absurd h (by simp)
          · rename_i r6 hpc
            have hkeep2 := pickCommits_keeps env saved r5
            rw [hpc] at hkeep2
            simp only [resState] at hkeep2
            have hc6s : r6.stashes = r0.stashes + (if r0.dirty then 1 else 0) := by
              rw [hkeep2.2.1, hkeep1.2.1, hc4.1, hc3.1, hst, hsps]
            have hc6p : r6.popCount = r0.popCount := by
              rw [hkeep2.2.2.1, hkeep1.2.2.1, hc4.2, hc3.2, hpcnt, hspp]
            have hpub := rebuildPublish_ok_counts cfg co _ _ backup
              (tempName cfg) r6 r2 h
            constructor
            · intro hd
              have hsc : (stashPhase r0).1 = false := by rw [hsp1, hd]
              have hres := hpub.1 hsc
              refine ⟨?_, ?_⟩
              · rw [hres.2, hc6p]
              · rw [hres.1, hc6s, hd]
                simp
            · intro hd
              have hsc : (stashPhase r0).1 = true := by rw [hsp1, hd]
              have hres := hpub.2 hsc
              rw [hres, hc6p]

/-- C9 witness: the successful rebuild of the dirty repoTwo pops exactly
the stash it pushed. -/
theorem rebuild_stash_pop_iff_pushed_witness :
    (repoTwo.dirty = false → repoTwoSuccessState.popCount = repoTwo.popCount ∧
      repoTwoSuccessState.stashes = repoTwo.stashes) ∧
    (repoTwo.dirty = true → repoTwoSuccessState.popCount = repoTwo.popCount + 1) :=
  rebuild_stash_pop_iff_pushed envNoConflict cfgWork true repoTwo
    repoTwoSuccessState (by rfl)

/-- C3: the classifier returns exactly the non-merge commits reachable
from the working branch but from neither the base nor any feature
branch, each exactly once, in chronological oldest-first order. -/
theorem local_commits_classifier_correct (r : Repo) (w base : String)
    (features : List String) (wt bt : String) (fts : List String)
    (hwf : RepoWF r) (hw : resolveRef r w = some wt)
    (hb : resolveRef r base = some bt) (hf : resolveRefs r features = some fts) :
    (∀ cid, cid ∈ get_local_working_branch_commits r w base features ↔
      ∃ c ∈ r.commits, c.id = cid ∧ isMergeCommit c = false ∧
        reachable r wt cid = true ∧ reachable r bt cid = false ∧
        ∀ ft ∈ fts, reachable r ft cid = false) ∧
    (get_local_working_branch_commits r w base features).Nodup ∧
    (get_local_working_branch_commits r w base features).Pairwise (dateLE r) := by
  unfold get_local_working_branch_commits
  rw [hw, hb, hf]
  refine ⟨?_, ?_, ?_⟩
  · intro cid
    simp only [List.mem_map, List.mem_filter]
    constructor
    · rintro ⟨c, ⟨hcm, hcond⟩, rfl⟩
      simp only [Bool.and_eq_true, Bool.not_eq_true', List.all_eq_true] at hcond
      obtain ⟨⟨⟨h1, h2⟩, h3⟩, h4⟩ := hcond
      refine ⟨c, hcm, rfl, h4, h1, h2, ?_⟩
      intro ft hft
      simpa using h3 ft hft
    · rintro ⟨c, hcm, rfl, hm, h1, h2, h3⟩
      refine ⟨c, ⟨hcm, ?_⟩, rfl⟩
      simp only [Bool.and_eq_true, Bool.not_eq_true', List.all_eq_true]
      exact ⟨⟨⟨h1, h2⟩, fun ft hft => by simpa using h3 ft hft⟩, hm⟩
  · exact (((List.filter_sublist r.commits).map (fun c => c.id)).nodup) hwf.2
  · rw [List.pairwise_map]
    have hsub : List.Sublist (r.commits.filter (fun c =>
        reachable r wt c.id && !reachable r bt c.id &&
        fts.all (fun ft => !reachable r ft c.id) && !isMergeCommit c)) r.commits :=
      List.filter_sublist r.commits
    have hpw := List.Pairwise.sublist hsub hwf.1
    refine hpw.imp_of_mem ?_
    intro a b ha hb2 hab
    intro ca hca hida cb hcb hidb
    have haM : a ∈ r.commits := hsub.subset ha
    have hbM : b ∈ r.commits := hsub.subset hb2
    have hea : ca = a := List.inj_on_of_nodup_map hwf.2 hca haM hida
    have heb : cb = b := List.inj_on_of_nodup_map hwf.2 hcb hbM hidb
    rw [hea, heb]
    exact hab

/-- C3 witness: the classifier statement evaluated on repoCls, where
work tips a merge commit, c1 is shared with the feature branch and c2 is
the sole local commit. -/
theorem local_commits_classifier_correct_witness :
    (∀ cid, cid ∈ get_local_working_branch_commits repoCls "work" "main" ["f1"] ↔
      ∃ c ∈ repoCls.commits, c.id = cid ∧ isMergeCommit c = false ∧
        reachable repoCls "m" cid = true ∧ reachable repoCls "c0" cid = false ∧
        ∀ ft ∈ ["c1"], reachable repoCls ft cid = false) ∧
    (get_local_working_branch_commits repoCls "work" "main" ["f1"]).Nodup ∧
    (get_local_working_branch_commits repoCls "work" "main" ["f1"]).Pairwise
      (dateLE repoCls) :=
  local_commits_classifier_correct repoCls "work" "main" ["f1"] "m" "c0" ["c1"]
    ⟨by decide, by decide⟩ (by rfl) (by rfl) (by rfl)

end GitKnit
